import Mathlib

/-!
# Verification of the rclone-golib progress/state-tracking core

A shallow embedding, in Lean 4, of the core of the `rclone-golib` Go
library: the progress-stream tokenizer and stats-line parser
(`rclone.go`), the transfer store (`Manager`), the retry controller
(`retry.go`), the error classifier (`ClassifyError`) and the argument
builder (`Executor.Execute`).

Modelling conventions:
* Go byte/rune streams are `List Char` (all data involved is ASCII).
* Go `float64` values are modelled as exact decimal numbers
  (`DecNum`: an integer mantissa over a power of ten).  Every numeric
  value exercised by the statements below (`512.0`, `1.0`, `1.5`,
  `50`, integral powers of 1024) is exactly representable as an
  IEEE-754 double, and the products taken fit well inside the exactly
  representable range, so the exact model agrees with the Go `float64`
  computation on all inputs appearing in the theorems.
* Go `int64`/`int` are modelled as `Int` (no value in any statement
  approaches the 64-bit range, so wraparound never fires).
* `time.Time` values are modelled as abstract `Nat` clock readings
  supplied by the caller (`0` is the zero time), and `time.Duration`
  as integer nanoseconds.
* Go `error` values are modelled by the inductive `GoError`, with
  `errors.As`-style unwrapping for the `*ValidationError` check.
-/

/-! ## Stream tokenizer (`parseRcloneOutput` split function, rclone.go:135-160) -/

/-- `strings.IndexAny(string(data), "\r\n")`: index of the first `\r` or
`\n` in the data, `none` if absent. -/
def indexAnyCRLF : List Char → Option Nat
  | [] => none
  | c :: rest =>
    if c = '\r' ∨ c = '\n' then some 0
    else (indexAnyCRLF rest).map (· + 1)

/-- One split decision of the custom `bufio.SplitFunc` installed by
`parseRcloneOutput`: the token before the first `\r`/`\n` together
with the number of characters to advance past it (a `\r` immediately
followed by `\n` is consumed as a single terminator), or `none` when
the data holds no terminator. -/
def splitStep (data : List Char) : Option (List Char × Nat) :=
  (indexAnyCRLF data).map (fun i =>
    (data.take i,
      if data.get? i = some '\r' ∧ data.get? (i + 1) = some '\n' then i + 2 else i + 1))

/-- The tokenizer loop, structurally recursive on a fuel bound (every
step advances at least one character, so `data.length + 1` steps always
suffice; the fuel-0 branch is unreachable from `tokenize`). -/
def tokenizeAux (fuel : Nat) (data : List Char) : List (List Char) :=
  match fuel with
  | 0 => []
  | fuel + 1 =>
    match splitStep data with
    | some (token, advance) => token :: tokenizeAux fuel (data.drop advance)
    | none => if data.isEmpty then [] else [data]

/-- The Decoder's tokenizer: the split function run to completion over
the stream.  One token per `\r`/`\n`/`\r\n` terminator, and at end of
stream the remaining non-empty data forms a final token. -/
def tokenize (data : List Char) : List (List Char) :=
  tokenizeAux (data.length + 1) data

/-! ## Logical line structure (the vocabulary of the tokenizer claim) -/

/-- A line terminator: `\n`, `\r`, or the pair `\r\n`. -/
inductive LineTerm where
  | lf
  | cr
  | crlf
deriving DecidableEq, Repr

/-- The characters of a terminator. -/
def LineTerm.chars : LineTerm → List Char
  | .lf => ['\n']
  | .cr => ['\r']
  | .crlf => ['\r', '\n']

/-- No terminator character occurs in the data. -/
def noDelim (l : List Char) : Bool :=
  l.all (fun c => ¬(c = '\r' ∨ c = '\n'))

/-- The byte stream of a sequence of terminated logical lines followed
by an unterminated trailing fragment. -/
def streamOf : List (List Char × LineTerm) → List Char → List Char
  | [], trailing => trailing
  | (l, t) :: rest, trailing => l ++ t.chars ++ streamOf rest trailing

/-- Canonical decomposition of a stream into logical lines: every line
and the trailing fragment are terminator-free, and a bare `\r`
terminator is never immediately followed by `\n` (under the
maximal-munch reading shared by the claim, such a pair is the single
`\r\n` terminator of the same line instead). -/
def wfStream : List (List Char × LineTerm) → List Char → Bool
  | [], trailing => noDelim trailing
  | (l, t) :: rest, trailing =>
    noDelim l &&
      (!(t == LineTerm.cr) || !((streamOf rest trailing).head? == some '\n')) &&
      wfStream rest trailing

/-! ## Size and number parsing (`parseSize`, rclone.go:188-214) -/

/-- Value of a digit string, e.g. `['4','2'] ↦ 42`. -/
def digitsVal (l : List Char) : Nat :=
  l.foldl (fun acc c => 10 * acc + (c.toNat - '0'.toNat)) 0

/-- An exact decimal number `mant / 10 ^ exp`, the model of the
`float64` values this library computes with (see the header note). -/
structure DecNum where
  mant : Int
  exp : Nat
deriving DecidableEq, Repr

/-- The rational value of a `DecNum` (used only in specifications). -/
def DecNum.val (d : DecNum) : ℚ :=
  (d.mant : ℚ) / (10 : ℚ) ^ d.exp

/-- `d ≤ 0` on the modelled float. -/
def DecNum.isNonPos (d : DecNum) : Bool :=
  d.mant ≤ 0

/-- Multiplication of a modelled float by an integer. -/
def DecNum.mulInt (d : DecNum) (m : Int) : DecNum :=
  ⟨d.mant * m, d.exp⟩

/-- Go conversion `int64(x)`: truncation toward zero. -/
def DecNum.toInt64 (d : DecNum) : Int :=
  d.mant.tdiv ((10 : Int) ^ d.exp)

/-- `strconv.ParseFloat` restricted to the decimal fragment
`[0-9]* ['.' [0-9]*]` actually produced by the stats regex (whose
numeric groups match only `[0-9.]+`) and by the unit-parsing claims.
Strings of any other shape (a second dot, a stray character, the empty
string, a bare dot) are rejected, exactly as `ParseFloat` rejects them.
The result is the exact decimal value; see the header note on
`float64` modelling. -/
def goParseFloat (s : String) : Option DecNum :=
  let l := s.toList
  if ¬ l.all (fun c => c.isDigit ∨ c = '.') then none
  else
    match l.splitOn '.' with
    | [intPart] => if intPart.isEmpty then none else some ⟨digitsVal intPart, 0⟩
    | [intPart, fracPart] =>
      if intPart.isEmpty ∧ fracPart.isEmpty then none
      else some ⟨digitsVal intPart * 10 ^ fracPart.length + digitsVal fracPart, fracPart.length⟩
    | _ => none

/-- ASCII upper-casing of a string (`strings.ToUpper` on ASCII data). -/
def toUpperStr (s : String) : String :=
  ⟨s.toList.map Char.toUpper⟩

/-- `strings.TrimSuffix`. -/
def trimSuffix (s suffix : String) : String :=
  if suffix.toList.isSuffixOf s.toList then ⟨s.toList.take (s.length - suffix.length)⟩ else s

/-- `strings.TrimSpace` on ASCII data: strip leading and trailing
whitespace characters. -/
def trimSpace (s : String) : String :=
  ⟨(((s.toList.dropWhile Char.isWhitespace).reverse.dropWhile Char.isWhitespace).reverse)⟩

/-- `parseSize` (rclone.go:188-214): parse a numeric string and a unit
token into a byte count.  The unit is upper-cased, a trailing `B` and
then a trailing `I` are stripped, and the remaining letter selects a
1024-based multiplier; a malformed number yields 0. -/
def parseSize (value unit : String) : Int :=
  match goParseFloat value with
  | none => 0
  | some val =>
    let unit1 := trimSuffix (trimSuffix (toUpperStr (trimSpace unit)) "B") "I"
    let multiplier : Int :=
      if unit1 = "K" then 1024
      else if unit1 = "M" then 1024 * 1024
      else if unit1 = "G" then 1024 * 1024 * 1024
      else if unit1 = "T" then 1024 * 1024 * 1024 * 1024
      else if unit1 = "P" then 1024 * 1024 * 1024 * 1024 * 1024
      else 1
    (val.mulInt multiplier).toInt64

/-! ## Stats-line matching (`statsRegex`, rclone.go:162-184)

The Go code matches each token against the regular expression

  `Transferred:\s+([0-9.]+)\s*([kKMGTP]i?[Bb]?)\s*/\s*([0-9.]+)\s*([kKMGTP]i?[Bb]?),\s*([0-9]+)%`

with `FindStringSubmatch` (leftmost match).  The matcher below is that
regex transliterated piece by piece.  Greedy matching without
backtracking is faithful here because every repeated or optional item
is followed by an item whose first characters are disjoint from it
(digits/dots vs. whitespace vs. unit letters vs. `/`, `,`, `%`), so
the greedy parse succeeds exactly when some parse succeeds. -/

/-- RE2 character class `\s` = `[\t\n\f\r ]`. -/
def isSpaceRE2 (c : Char) : Bool :=
  c = ' ' ∨ c = '\t' ∨ c = '\n' ∨ c = '\x0c' ∨ c = '\r'

/-- Character class `[0-9.]`. -/
def isNumDot (c : Char) : Bool :=
  c.isDigit ∨ c = '.'

/-- Character class `[kKMGTP]`. -/
def isUnitLetter (c : Char) : Bool :=
  c = 'k' ∨ c = 'K' ∨ c = 'M' ∨ c = 'G' ∨ c = 'T' ∨ c = 'P'

/-- Match a literal string prefix, returning the rest. -/
def matchLit (lit : List Char) (s : List Char) : Option (List Char) :=
  if lit.isPrefixOf s then some (s.drop lit.length) else none

/-- Match one-or-more characters of a class (`X+`), returning the
matched run and the rest. -/
def takeWhile1 (p : Char → Bool) (s : List Char) : Option (List Char × List Char) :=
  let run := s.takeWhile p
  if run.isEmpty then none else some (run, s.dropWhile p)

/-- Match `[kKMGTP]i?[Bb]?` (the captured unit group). -/
def matchUnit : List Char → Option (List Char × List Char)
  | [] => none
  | c :: rest =>
    if isUnitLetter c then
      let (mid, rest1) :=
        match rest with
        | 'i' :: r => (['i'], r)
        | r => ([], r)
      let (tail, rest2) :=
        match rest1 with
        | 'B' :: r => (['B'], r)
        | 'b' :: r => (['b'], r)
        | r => ([], r)
      some (c :: (mid ++ tail), rest2)
    else none

/-- The five capture groups of `statsRegex`: copied value, copied unit,
total value, total unit, percentage. -/
structure StatsGroups where
  copiedVal : String
  copiedUnit : String
  totalVal : String
  totalUnit : String
  percent : String
deriving DecidableEq, Repr

/-- Attempt to match `statsRegex` anchored at the start of `s`. -/
def matchStatsAt (s : List Char) : Option StatsGroups := do
  let s ← matchLit "Transferred:".toList s
  let (_, s) ← takeWhile1 isSpaceRE2 s
  let (g1, s) ← takeWhile1 isNumDot s
  let s := s.dropWhile isSpaceRE2
  let (g2, s) ← matchUnit s
  let s := s.dropWhile isSpaceRE2
  let s ← matchLit ['/'] s
  let s := s.dropWhile isSpaceRE2
  let (g3, s) ← takeWhile1 isNumDot s
  let s := s.dropWhile isSpaceRE2
  let (g4, s) ← matchUnit s
  let s ← matchLit [','] s
  let s := s.dropWhile isSpaceRE2
  let (g5, s) ← takeWhile1 Char.isDigit s
  let _ ← matchLit ['%'] s
  pure ⟨g1.asString, g2.asString, g3.asString, g4.asString, g5.asString⟩

/-- `statsRegex.FindStringSubmatch`: the leftmost position at which the
pattern matches, if any. -/
def findStats (s : List Char) : Option StatsGroups :=
  match matchStatsAt s with
  | some g => some g
  | none =>
    match s with
    | [] => none
    | _ :: rest => findStats rest

/-! ## Go error values -/

/-- A Go `error` value, as far as this library inspects one:
a leaf message, a `*ValidationError` (with its `Field` and `Message`),
or a `fmt.Errorf("...: %w", inner)` wrapper. -/
inductive GoError where
  | basic (msg : String)
  | validation (field message : String)
  | wrap (msg : String) (inner : GoError)
deriving DecidableEq, Repr

/-- `err.Error()`: the rendered error text.  A `%w` wrapper renders as
`msg ++ ": " ++ inner text`; a `ValidationError` renders as
`Field ++ ": " ++ Message`. -/
def GoError.errorText : GoError → String
  | .basic m => m
  | .validation f m => f ++ ": " ++ m
  | .wrap m inner => m ++ ": " ++ inner.errorText

/-- `errors.As(err, &valErr)` for `*ValidationError`: walk the unwrap
chain looking for a validation error. -/
def GoError.isValidationErr : GoError → Bool
  | .basic _ => false
  | .validation _ _ => true
  | .wrap _ inner => inner.isValidationErr

/-! ## Transfer store (`Manager`, the store source file) -/

/-- Transfer status (`Status` constants). -/
inductive TransferStatus where
  | pending
  | inProgress
  | completed
  | failed
deriving DecidableEq, Repr

/-- A terminal status: `Completed` or `Failed`. -/
def TransferStatus.isTerminal : TransferStatus → Bool
  | .completed => true
  | .failed => true
  | _ => false

/-- The `Transfer` record.  Times are abstract clock readings
(`0` = Go's zero `time.Time`); `Progress` is a `DecNum` for `float64`. -/
structure Transfer where
  ID : String
  Source : String
  Destination : String
  status : TransferStatus
  Progress : DecNum
  BytesTotal : Int
  BytesCopied : Int
  StartTime : Nat
  EndTime : Nat
  error : Option GoError
deriving DecidableEq, Repr

/-- The `Manager`: a map from id to transfer (association list with at
most one live binding per key, as a Go map) plus the insertion-order
list.  The mutex only serializes access and has no pure counterpart. -/
structure Manager where
  transfers : List (String × Transfer)
  order : List String
deriving DecidableEq, Repr

/-- `NewManager()`. -/
def Manager.new : Manager := ⟨[], []⟩

/-- Go map assignment `m[k] = v`: replace the binding if the key is
present, otherwise add one. -/
def mapInsert (l : List (String × Transfer)) (k : String) (v : Transfer) :
    List (String × Transfer) :=
  match l with
  | [] => [(k, v)]
  | (k', v') :: rest => if k' = k then (k, v) :: rest else (k', v') :: mapInsert rest k v

/-- The record built by `Manager.Add`: a fresh `Pending` transfer with
zero progress, zero byte counts, zero times and no error. -/
def freshTransfer (id source destination : String) : Transfer :=
  { ID := id, Source := source, Destination := destination,
    status := .pending, Progress := ⟨0, 0⟩, BytesTotal := 0, BytesCopied := 0,
    StartTime := 0, EndTime := 0, error := none }

/-- `Manager.Add`: install a fresh `Pending` record under the id
(replacing any existing record with that id, as a Go map assignment
does) and append the id to the insertion-order list unconditionally. -/
def Manager.add (m : Manager) (id source destination : String) : Manager :=
  { transfers := mapInsert m.transfers id (freshTransfer id source destination),
    order := m.order ++ [id] }

/-- `Manager.Start` at clock reading `now`: if the id is known, set the
status to `InProgress` and record the start time; otherwise no-op. -/
def Manager.start (m : Manager) (id : String) (now : Nat) : Manager :=
  match m.transfers.lookup id with
  | none => m
  | some t =>
    let t1 : Transfer := { t with status := .inProgress, StartTime := now }
    { m with transfers := mapInsert m.transfers id t1 }

/-- `Manager.UpdateProgress`: if the id is known, overwrite exactly the
`Progress`, `BytesCopied` and `BytesTotal` fields; otherwise no-op. -/
def Manager.updateProgress (m : Manager) (id : String) (progress : DecNum)
    (bytesCopied bytesTotal : Int) : Manager :=
  match m.transfers.lookup id with
  | none => m
  | some t =>
    let t1 : Transfer := { t with Progress := progress, BytesCopied := bytesCopied, BytesTotal := bytesTotal }
    { m with transfers := mapInsert m.transfers id t1 }

/-- `Manager.Complete` at clock reading `now`. -/
def Manager.complete (m : Manager) (id : String) (now : Nat) : Manager :=
  match m.transfers.lookup id with
  | none => m
  | some t =>
    let t1 : Transfer := { t with status := .completed, Progress := ⟨100, 0⟩, EndTime := now }
    { m with transfers := mapInsert m.transfers id t1 }

/-- `Manager.Fail` at clock reading `now`. -/
def Manager.fail (m : Manager) (id : String) (err : GoError) (now : Nat) : Manager :=
  match m.transfers.lookup id with
  | none => m
  | some t =>
    let t1 : Transfer := { t with status := .failed, EndTime := now, error := some err }
    { m with transfers := mapInsert m.transfers id t1 }

/-- `Manager.Get`. -/
def Manager.get (m : Manager) (id : String) : Option Transfer :=
  m.transfers.lookup id

/-- `Manager.GetAll`: walk the insertion-order list and return the
record for every id still present in the map. -/
def Manager.getAll (m : Manager) : List Transfer :=
  m.order.filterMap (fun id => m.transfers.lookup id)

/-- `Manager.Stats`: counts per status, ranging over the map's entries
(one entry per key, regardless of how often the key occurs in the
order list). -/
def Manager.stats (m : Manager) : Nat × Nat × Nat × Nat :=
  (m.transfers.countP (fun p => p.2.status = .pending),
   m.transfers.countP (fun p => p.2.status = .inProgress),
   m.transfers.countP (fun p => p.2.status = .completed),
   m.transfers.countP (fun p => p.2.status = .failed))

/-! ## The Decoder loop (`parseRcloneOutput`, rclone.go:122-185) -/

/-- One iteration of the scanner loop: skip empty tokens, match the
stats regex, and on a full match with a parsable percentage push
`UpdateProgress` with the two parsed sizes. -/
def processLine (tid : String) (m : Manager) (line : List Char) : Manager :=
  if line = [] then m
  else
    match findStats line with
    | none => m
    | some g =>
      match goParseFloat g.percent with
      | none => m
      | some percentage =>
        m.updateProgress tid percentage
          (parseSize g.copiedVal g.copiedUnit)
          (parseSize g.totalVal g.totalUnit)

/-- `parseRcloneOutput`: tokenize the stream and run the scanner loop
over the tokens, threading the store. -/
def parseRcloneOutput (m : Manager) (tid : String) (stream : List Char) : Manager :=
  (tokenize stream).foldl (processLine tid) m

/-! ## Retry controller (`retry.go`)

The attempt body (`e.Execute`) launches a subprocess, so the model
abstracts it as a function from the attempt number (1-based) to the
attempt's outcome (`none` = success).  The claims settled against this
model concern executions with no cancellation, so the context is
modelled as never cancelled: both `select` statements take their
non-cancelled branch, exactly as in the source when `ctx.Done()` never
fires.  Sleeping only delays; it does not alter control flow here. -/

/-- `RetryConfig` (durations in nanoseconds, multiplier an exact
decimal). -/
structure RetryConfig where
  MaxAttempts : Int
  InitialDelay : Int
  MaxDelay : Int
  Multiplier : DecNum
deriving DecidableEq, Repr

/-- `DefaultRetryConfig()` (retry.go:23-30). -/
def DefaultRetryConfig : RetryConfig :=
  { MaxAttempts := 3, InitialDelay := 2000000000, MaxDelay := 30000000000, Multiplier := ⟨2, 0⟩ }

/-- The validation prologue of `ExecuteWithRetry` (retry.go:34-45):
each non-positive field is replaced (max attempts by the floor 1,
initial delay by 2s, max delay by 30s, multiplier by 2.0). -/
def validateRetryConfig (cfg : RetryConfig) : RetryConfig :=
  { MaxAttempts := if cfg.MaxAttempts ≤ 0 then 1 else cfg.MaxAttempts,
    InitialDelay := if cfg.InitialDelay ≤ 0 then 2000000000 else cfg.InitialDelay,
    MaxDelay := if cfg.MaxDelay ≤ 0 then 30000000000 else cfg.MaxDelay,
    Multiplier := if cfg.Multiplier.isNonPos then ⟨2, 0⟩ else cfg.Multiplier }

/-- The delay update after a failed non-final attempt:
`time.Duration(math.Min(float64(delay) * multiplier, float64(maxDelay)))`
(retry.go:84-87); truncation commutes with the min against the integral
`maxDelay`. -/
def nextDelay (delay : Int) (multiplier : DecNum) (maxDelay : Int) : Int :=
  min ((multiplier.mulInt delay).toInt64) maxDelay

/-- The retry loop of `ExecuteWithRetry` (retry.go:55-91), with the
context never cancelled.  `attempt` is the 1-based loop counter and
`maxA` the validated `MaxAttempts`; the loop is structurally recursive
on the remaining attempt budget `remaining` (unreachable at 0, since
`executeWithRetry` starts it with `remaining = maxA ≥ 1` and the loop
breaks at `attempt = maxA`).  Returns the final error (`none` on
success) and the number of times the attempt body ran. -/
def retryLoop (attemptFn : Nat → Option GoError) (maxA : Nat) :
    Nat → Nat → Int → Int → DecNum → Option GoError × Nat
  | 0, _, _, _, _ => (none, 0)
  | remaining + 1, attempt, delay, maxDelay, multiplier =>
    match attemptFn attempt with
    | none => (none, attempt)
    | some err =>
      if attempt = maxA then
        (some (.wrap ("failed after " ++ toString maxA ++ " attempts") err), attempt)
      else
        retryLoop attemptFn maxA remaining (attempt + 1) (nextDelay delay multiplier maxDelay)
          maxDelay multiplier

/-- `Executor.ExecuteWithRetry` (retry.go:33-92) under a never-fired
cancellation context: validate the configuration, then run the loop
from attempt 1 with the initial delay. -/
def executeWithRetry (attemptFn : Nat → Option GoError) (cfg : RetryConfig) :
    Option GoError × Nat :=
  retryLoop attemptFn (validateRetryConfig cfg).MaxAttempts.toNat
    (validateRetryConfig cfg).MaxAttempts.toNat 1 (validateRetryConfig cfg).InitialDelay
    (validateRetryConfig cfg).MaxDelay (validateRetryConfig cfg).Multiplier

/-! ## Error classifier (`ClassifyError`) -/

/-- The error taxonomy (`ErrorType` constants). -/
inductive ErrType where
  | network
  | timeout
  | auth
  | notFound
  | fileSystem
  | invalidInput
  | insufficientSpace
  | unknown
deriving DecidableEq, Repr

/-- `ClassifiedError` (the wrapped error is kept alongside). -/
structure ClassifiedError where
  type : ErrType
  err : GoError
  retryable : Bool
  temporary : Bool
deriving DecidableEq, Repr

/-- ASCII lower-casing (`strings.ToLower` on ASCII data). -/
def toLowerStr (s : String) : String :=
  ⟨s.toList.map Char.toLower⟩

/-- `strings.Contains(s, sub)`. -/
def strContains (s sub : String) : Bool :=
  decide (sub.toList.IsInfix s.toList)

/-- The network keyword set (part of `ClassifyError`). -/
def networkKeywords : List String :=
  ["network", "connection", "dial", "no route to host", "host is down"]

/-- The timeout keyword set. -/
def timeoutKeywords : List String :=
  ["timeout", "deadline exceeded", "i/o timeout"]

/-- The auth keyword set. -/
def authKeywords : List String :=
  ["auth", "unauthorized", "forbidden", "permission denied", "access denied"]

/-- The not-found keyword set. -/
def notFoundKeywords : List String :=
  ["not found", "no such file", "does not exist", "404"]

/-- The disk-space keyword set. -/
def spaceKeywords : List String :=
  ["no space left", "insufficient space", "disk full", "quota exceeded"]

/-- The filesystem keyword set. -/
def fileSystemKeywords : List String :=
  ["filesystem", "i/o error", "read-only"]

/-- `ClassifyError` on a non-nil error: the validation check first,
then the six keyword sets against the lower-cased error text in fixed
order, then the `Unknown` fall-through (retryable, not temporary). -/
def classifyError (err : GoError) : ClassifiedError :=
  let errStr := toLowerStr err.errorText
  if err.isValidationErr then
    ⟨.invalidInput, err, false, false⟩
  else if networkKeywords.any (strContains errStr) then
    ⟨.network, err, true, true⟩
  else if timeoutKeywords.any (strContains errStr) then
    ⟨.timeout, err, true, true⟩
  else if authKeywords.any (strContains errStr) then
    ⟨.auth, err, false, false⟩
  else if notFoundKeywords.any (strContains errStr) then
    ⟨.notFound, err, false, false⟩
  else if spaceKeywords.any (strContains errStr) then
    ⟨.insufficientSpace, err, false, false⟩
  else if fileSystemKeywords.any (strContains errStr) then
    ⟨.fileSystem, err, false, false⟩
  else
    ⟨.unknown, err, true, false⟩

/-! ## Argument construction (`Executor.Execute`, rclone.go:60-92) -/

/-- `RcloneOptions` (the command is its underlying string; the
cancellation context is irrelevant to argument construction). -/
structure RcloneOptions where
  Command : String
  Source : String
  Destination : String
  Flags : List String
  StatsInterval : String
  DryRun : Bool
deriving DecidableEq, Repr

/-- The argument vector built at rclone.go:62-83: verb, `-v`,
`--stats` with the (defaulted) interval, optional `--dry-run`, the
extra flags, then source and destination. -/
def buildArgs (opts : RcloneOptions) : List String :=
  let args := [opts.Command, "-v"]
  let statsInterval := if opts.StatsInterval = "" then "500ms" else opts.StatsInterval
  let args := args ++ ["--stats", statsInterval]
  let args := if opts.DryRun then args ++ ["--dry-run"] else args
  let args := args ++ opts.Flags
  args ++ [opts.Source, opts.Destination]

/-! # Theorems -/

/-! ### Tokenizer infrastructure -/

theorem indexAnyCRLF_lt_length {data : List Char} {i : Nat}
    (h : indexAnyCRLF data = some i) : i < data.length := by
  induction data generalizing i with
  | nil => simp [indexAnyCRLF] at h
  | cons c rest ih =>
    by_cases hc : c = '\r' ∨ c = '\n'
    · simp [indexAnyCRLF, hc] at h
      simp [List.length_cons]
      omega
    · simp [indexAnyCRLF, hc] at h
      obtain ⟨j, hj, rfl⟩ := h
      have := ih hj
      simp
      omega

theorem noDelim_cons {c : Char} {l : List Char} :
    noDelim (c :: l) = true ↔ ¬(c = '\r' ∨ c = '\n') ∧ noDelim l = true := by
  simp [noDelim]

theorem indexAnyCRLF_none_of_noDelim {l : List Char} (hl : noDelim l = true) :
    indexAnyCRLF l = none := by
  induction l with
  | nil => rfl
  | cons c rest ih =>
    rw [noDelim_cons] at hl
    obtain ⟨h1, h2⟩ := hl
    simp [indexAnyCRLF, h1, ih h2]

theorem indexAnyCRLF_append {l rest : List Char} (hl : noDelim l = true) :
    indexAnyCRLF (l ++ rest) = (indexAnyCRLF rest).map (· + l.length) := by
  induction l with
  | nil => cases h : indexAnyCRLF rest <;> simp [h]
  | cons c l2 ih =>
    rw [noDelim_cons] at hl
    obtain ⟨h1, h2⟩ := hl
    rw [List.cons_append]
    have step : indexAnyCRLF (c :: (l2 ++ rest)) = (indexAnyCRLF (l2 ++ rest)).map (· + 1) := by
      simp [indexAnyCRLF, h1]
    rw [step, ih h2]
    cases h : indexAnyCRLF rest with
    | none => simp
    | some j =>
      simp [List.length_cons]
      omega

theorem splitStep_some_bounds {data tok : List Char} {adv : Nat}
    (h : splitStep data = some (tok, adv)) : 1 ≤ adv ∧ 1 ≤ data.length := by
  unfold splitStep at h
  cases hidx : indexAnyCRLF data with
  | none => rw [hidx] at h; simp at h
  | some i =>
    have hi := indexAnyCRLF_lt_length hidx
    rw [hidx] at h
    simp only [Option.map_some', Option.some.injEq, Prod.mk.injEq] at h
    obtain ⟨-, h2⟩ := h
    constructor
    · split at h2 <;> omega
    · omega

theorem tokenizeAux_congr (f1 : Nat) :
    ∀ (f2 : Nat) (data : List Char), data.length < f1 → data.length < f2 →
      tokenizeAux f1 data = tokenizeAux f2 data := by
  induction f1 with
  | zero => intro f2 data h1 _; omega
  | succ g1 ih =>
    intro f2 data h1 h2
    cases f2 with
    | zero => omega
    | succ g2 =>
      simp only [tokenizeAux]
      cases hs : splitStep data with
      | none => rfl
      | some ta =>
        obtain ⟨tok, adv⟩ := ta
        have hb := splitStep_some_bounds hs
        have hlen : (data.drop adv).length = data.length - adv := by
          simp
        exact congrArg (tok :: ·) (ih g2 (data.drop adv) (by omega) (by omega))

/-- The unfolding equation of `tokenize` at a split, independent of
the fuel. -/
theorem tokenize_eq_some {data tok : List Char} {adv : Nat}
    (h : splitStep data = some (tok, adv)) :
    tokenize data = tok :: tokenize (data.drop adv) := by
  have hb := splitStep_some_bounds h
  show tokenizeAux (data.length + 1) data = _
  simp only [tokenizeAux, h]
  have hlen : (data.drop adv).length = data.length - adv := by
    simp
  exact congrArg (tok :: ·)
    (tokenizeAux_congr data.length ((data.drop adv).length + 1) (data.drop adv)
      (by omega) (by omega))

/-- The unfolding equation of `tokenize` at end of data. -/
theorem tokenize_eq_none {data : List Char} (h : splitStep data = none) :
    tokenize data = if data.isEmpty then [] else [data] := by
  show tokenizeAux (data.length + 1) data = _
  simp only [tokenizeAux, h]

theorem splitStep_line {l : List Char} (t : LineTerm) {s : List Char}
    (hl : noDelim l = true) (hcr : t = .cr → s.head? ≠ some '\n') :
    splitStep (l ++ t.chars ++ s) = some (l, l.length + t.chars.length) := by
  have hidx : indexAnyCRLF (l ++ (t.chars ++ s)) = some l.length := by
    rw [indexAnyCRLF_append hl]
    cases t <;> simp [LineTerm.chars, indexAnyCRLF]
  have hget0 : (l ++ (t.chars ++ s)).get? l.length = (t.chars ++ s).get? 0 := by
    rw [List.get?_append_right (Nat.le_refl _)]
    simp
  have hget1 : (l ++ (t.chars ++ s)).get? (l.length + 1) = (t.chars ++ s).get? 1 := by
    rw [List.get?_append_right (by omega)]
    simp
  unfold splitStep
  rw [List.append_assoc, hidx, Option.map_some']
  cases t with
  | lf =>
    have h0 : (LineTerm.lf.chars ++ s).get? 0 = some '\n' := by simp [LineTerm.chars]
    rw [hget0, hget1, h0, if_neg, List.take_left]
    · simp [LineTerm.chars]
    · intro hand
      exact absurd hand.1 (by decide)
  | crlf =>
    have h0 : (LineTerm.crlf.chars ++ s).get? 0 = some '\r' := by simp [LineTerm.chars]
    have h1 : (LineTerm.crlf.chars ++ s).get? 1 = some '\n' := by simp [LineTerm.chars]
    rw [hget0, hget1, h0, h1, if_pos ⟨rfl, rfl⟩, List.take_left]
    simp [LineTerm.chars]
  | cr =>
    have h0 : (LineTerm.cr.chars ++ s).get? 0 = some '\r' := by simp [LineTerm.chars]
    have h1 : (LineTerm.cr.chars ++ s).get? 1 = s.head? := by
      cases s <;> simp [LineTerm.chars]
    rw [hget0, hget1, h0, h1, if_neg, List.take_left]
    · simp [LineTerm.chars]
    · intro hand
      exact hcr rfl hand.2

theorem tokenize_line_step (l : List Char) (t : LineTerm) (s : List Char)
    (hl : noDelim l = true) (hcr : t = .cr → s.head? ≠ some '\n') :
    tokenize (l ++ t.chars ++ s) = l :: tokenize s := by
  rw [tokenize_eq_some (splitStep_line t hl hcr)]
  have hdrop : (l ++ t.chars ++ s).drop (l.length + t.chars.length) = s := by
    rw [← List.length_append, List.append_assoc, ← List.append_assoc]
    exact List.drop_left _ _
  rw [hdrop]

/-! ### C1 -/

/-- C1: for every byte stream decomposed into logical lines each ended
by `\n`, `\r`, or the pair `\r\n` (the pair read as a single
terminator) plus an unterminated trailing fragment, the Decoder's
tokenizer emits exactly one token per logical line — in particular no
empty phantom token for a `\r\n` pair — followed by the trailing
fragment as a final token exactly when it is non-empty. -/
theorem C1_tokenizer_one_token_per_line (lines : List (List Char × LineTerm))
    (trailing : List Char) (hwf : wfStream lines trailing = true) :
    tokenize (streamOf lines trailing) =
      lines.map Prod.fst ++ (if trailing = [] then [] else [trailing]) := by
  induction lines with
  | nil =>
    have hnone : splitStep trailing = none := by
      unfold splitStep
      rw [indexAnyCRLF_none_of_noDelim hwf]
      rfl
    show tokenize trailing = _
    rw [tokenize_eq_none hnone]
    cases trailing <;> simp
  | cons p rest ih =>
    obtain ⟨l, t⟩ := p
    simp only [wfStream, Bool.and_eq_true] at hwf
    obtain ⟨⟨h1, h2⟩, h3⟩ := hwf
    have hcr : t = .cr → (streamOf rest trailing).head? ≠ some '\n' := by
      intro ht heq
      rw [ht, heq] at h2
      simp at h2
    show tokenize (l ++ t.chars ++ streamOf rest trailing) = _
    rw [tokenize_line_step l t _ h1 hcr, ih h3]
    simp

/-- Witness for C1 at a concrete stream mixing all three terminators
(`"aa\r\nBB\rc\nd"`): three lines plus a trailing fragment, with the
`\r\n` pair producing no phantom empty token. -/
theorem C1_tokenizer_one_token_per_line_witness :
    wfStream [("aa".toList, .crlf), ("BB".toList, .cr), ("c".toList, .lf)] "d".toList = true ∧
    tokenize (streamOf [("aa".toList, .crlf), ("BB".toList, .cr), ("c".toList, .lf)] "d".toList) =
      ["aa".toList, "BB".toList, "c".toList, "d".toList] :=
  ⟨by decide,
    C1_tokenizer_one_token_per_line
      [("aa".toList, .crlf), ("BB".toList, .cr), ("c".toList, .lf)] "d".toList (by decide)⟩

/-! ### C2 -/

/-- C2: feeding the Decoder exactly the line
`"Transferred:   512.0 MiB / 1.0 GiB, 50%, 10.0 MiB/s, ETA 30s\r"` for
transfer id `"t1"` (previously Added and Started, with any source,
destination and start instant) leaves `Get("t1")` reporting progress
50, 536870912 bytes copied (= 512.0 · 1024 · 1024) and 1073741824
total bytes (= 1.0 · 1024³). -/
theorem C2_end_to_end_stats_line (source destination : String) (now : Nat) :
    ((parseRcloneOutput ((Manager.new.add "t1" source destination).start "t1" now) "t1"
          ("Transferred:   512.0 MiB / 1.0 GiB, 50%, 10.0 MiB/s, ETA 30s\r".toList)).get
        "t1").map (fun t => (t.Progress, t.BytesCopied, t.BytesTotal)) =
      some (⟨50, 0⟩, 536870912, 1073741824) ∧
    DecNum.val ⟨50, 0⟩ = 50 ∧
    (536870912 : ℚ) = 512 * 1024 * 1024 ∧
    (1073741824 : ℚ) = 1 * 1024 ^ 3 := by
  refine ⟨rfl, ?_, by norm_num, by norm_num⟩
  norm_num [DecNum.val]

/-! ### Store lemmas (`mapInsert` vs `lookup`) -/

theorem lookup_mapInsert_self (l : List (String × Transfer)) (k : String) (v : Transfer) :
    (mapInsert l k v).lookup k = some v := by
  induction l with
  | nil => simp [mapInsert]
  | cons p rest ih =>
    obtain ⟨k2, v2⟩ := p
    by_cases h : k2 = k
    · simp [mapInsert, h]
    · simp only [mapInsert, if_neg h, List.lookup, beq_false_of_ne (Ne.symm h)]
      exact ih

theorem lookup_mapInsert_ne (l : List (String × Transfer)) (k k2 : String) (v : Transfer)
    (h : k2 ≠ k) : (mapInsert l k v).lookup k2 = l.lookup k2 := by
  induction l with
  | nil => simp [mapInsert, List.lookup, beq_false_of_ne h]
  | cons p rest ih =>
    obtain ⟨k3, v3⟩ := p
    by_cases h3 : k3 = k
    · subst h3
      simp [mapInsert, List.lookup, beq_false_of_ne h]
    · simp only [mapInsert, if_neg h3, List.lookup, ih]

/-! ### C3 -/

/-- C3 counterexample: a record Completed at id `"t"` is moved out of
the terminal set by a later `Start` (status becomes InProgress) and by
a later `Add` (record replaced by a fresh Pending one), so the claim
that every store operation invoked afterwards preserves terminal
status is false. -/
theorem C3_counterexample_start_and_add_leave_terminal :
    ((((Manager.new.add "t" "s" "d").complete "t" 1).get "t").map
        (fun t => t.status.isTerminal) = some true) ∧
    (((((Manager.new.add "t" "s" "d").complete "t" 1).start "t" 2).get "t").map
        (fun t => t.status) = some .inProgress) ∧
    (((((Manager.new.add "t" "s" "d").complete "t" 1).add "t" "s2" "d2").get "t").map
        (fun t => t.status) = some .pending) ∧
    TransferStatus.inProgress.isTerminal = false ∧
    TransferStatus.pending.isTerminal = false := by decide

/-- C3 amended: among the store operations, `UpdateProgress`,
`Complete` and `Fail` never move a record whose status is Completed or
Failed out of the terminal set (`UpdateProgress` leaves the status
untouched, `Complete` and `Fail` map it within the set); `Add` and
`Start`, which carry no terminal-state guard, do not preserve it
(`Add` resets the record to Pending and `Start` forces InProgress), so
terminal states are not absorbing for those two operations. -/
theorem C3_amended_terminal_preserved_by_update_complete_fail (m : Manager) (id : String)
    (t : Transfer) (hlk : m.transfers.lookup id = some t)
    (hterm : t.status.isTerminal = true) :
    (∀ p bc bt, ∃ t2, (m.updateProgress id p bc bt).transfers.lookup id = some t2 ∧
        t2.status.isTerminal = true) ∧
    (∀ now, ∃ t2, (m.complete id now).transfers.lookup id = some t2 ∧
        t2.status.isTerminal = true) ∧
    (∀ err now, ∃ t2, (m.fail id err now).transfers.lookup id = some t2 ∧
        t2.status.isTerminal = true) := by
  refine ⟨?_, ?_, ?_⟩
  · intro p bc bt
    unfold Manager.updateProgress
    rw [hlk]
    exact ⟨_, lookup_mapInsert_self _ _ _, hterm⟩
  · intro now
    unfold Manager.complete
    rw [hlk]
    exact ⟨_, lookup_mapInsert_self _ _ _, rfl⟩
  · intro err now
    unfold Manager.fail
    rw [hlk]
    exact ⟨_, lookup_mapInsert_self _ _ _, rfl⟩

/-- Witness for the amended C3 on a store holding a Completed record. -/
theorem C3_amended_terminal_preserved_witness :
    (∃ t2, (((Manager.new.add "a" "s" "d").complete "a" 1).updateProgress "a" ⟨5, 0⟩ 7
          9).transfers.lookup "a" = some t2 ∧ t2.status.isTerminal = true) ∧
    (∃ t2, (((Manager.new.add "a" "s" "d").complete "a" 1).complete "a" 2).transfers.lookup "a" =
        some t2 ∧ t2.status.isTerminal = true) ∧
    (∃ t2, (((Manager.new.add "a" "s" "d").complete "a" 1).fail "a" (.basic "x")
          2).transfers.lookup "a" = some t2 ∧ t2.status.isTerminal = true) := by
  have h := C3_amended_terminal_preserved_by_update_complete_fail
    ((Manager.new.add "a" "s" "d").complete "a" 1) "a"
    { freshTransfer "a" "s" "d" with status := .completed, Progress := ⟨100, 0⟩, EndTime := 1 }
    (by decide) (by decide)
  exact ⟨h.1 ⟨5, 0⟩ 7 9, h.2.1 2, h.2.2 (.basic "x") 2⟩

/-! ### C9 -/

/-- C9: `UpdateProgress` on an unknown id leaves the store completely
unchanged; on a known id it overwrites exactly the `Progress`,
`BytesCopied` and `BytesTotal` fields of that record — whatever its
status — leaving the record's other fields, every other record, and
the insertion-order list unchanged. -/
theorem C9_updateProgress_frame (m : Manager) (id : String) (p : DecNum) (bc bt : Int) :
    (m.transfers.lookup id = none → m.updateProgress id p bc bt = m) ∧
    (∀ t, m.transfers.lookup id = some t →
      ((m.updateProgress id p bc bt).order = m.order ∧
       (m.updateProgress id p bc bt).transfers.lookup id =
         some { t with Progress := p, BytesCopied := bc, BytesTotal := bt } ∧
       ∀ id2, id2 ≠ id →
         (m.updateProgress id p bc bt).transfers.lookup id2 = m.transfers.lookup id2)) := by
  constructor
  · intro h
    unfold Manager.updateProgress
    rw [h]
  · intro t h
    unfold Manager.updateProgress
    rw [h]
    refine ⟨rfl, lookup_mapInsert_self _ _ _, ?_⟩
    intro id2 h2
    exact lookup_mapInsert_ne _ _ _ _ h2

/-- Witness for C9: an unknown id is a strict no-op, and a known id in
the Pending state gets exactly the three progress fields updated. -/
theorem C9_updateProgress_frame_witness :
    ((Manager.new.add "a" "s" "d").updateProgress "zz" ⟨5, 0⟩ 7 9 =
        Manager.new.add "a" "s" "d") ∧
    ((Manager.new.add "a" "s" "d").updateProgress "a" ⟨5, 0⟩ 7 9).transfers.lookup "a" =
      some { freshTransfer "a" "s" "d" with Progress := ⟨5, 0⟩, BytesCopied := 7, BytesTotal := 9 } := by
  refine ⟨(C9_updateProgress_frame (Manager.new.add "a" "s" "d") "zz" ⟨5, 0⟩ 7 9).1 (by decide),
    (((C9_updateProgress_frame (Manager.new.add "a" "s" "d") "a" ⟨5, 0⟩ 7 9).2
      (freshTransfer "a" "s" "d") (by decide)).2.1)⟩

/-! ### C10 -/

theorem count_le_filterMap_count (f : String → Option Transfer) (v : Transfer) (id : String)
    (hf : f id = some v) :
    ∀ ord : List String, ord.count id ≤ (ord.filterMap f).count v := by
  intro ord
  induction ord with
  | nil => simp
  | cons x rest ih =>
    by_cases hx : x = id
    · subst hx
      rw [List.filterMap_cons, hf]
      simp only [List.count_cons]
      simp
      exact ih
    · rw [List.filterMap_cons]
      cases hfx : f x with
      | none =>
        simpa [List.count_cons, hx] using ih
      | some y =>
        simp only [List.count_cons, beq_iff_eq, if_neg hx]
        have : (rest.filterMap f).count v ≤ (y :: rest.filterMap f).count v := by
          simp [List.count_cons]
        omega

theorem countP_key_eq_zero_of_not_mem {l : List (String × Transfer)} {id : String}
    (h : id ∉ l.map Prod.fst) : l.countP (fun p => p.1 = id) = 0 := by
  rw [List.countP_eq_zero]
  intro p hp
  simp only [decide_eq_true_eq]
  intro heq
  exact h (List.mem_map.mpr ⟨p, hp, heq⟩)

theorem countP_key_mapInsert {l : List (String × Transfer)} {id : String} {t v : Transfer}
    (hnodup : (l.map Prod.fst).Nodup) (hlk : l.lookup id = some t) :
    (mapInsert l id v).countP (fun p => p.1 = id) = 1 := by
  induction l with
  | nil => simp [List.lookup] at hlk
  | cons p rest ih =>
    obtain ⟨k, w⟩ := p
    simp only [List.map_cons, List.nodup_cons] at hnodup
    obtain ⟨hk, hrest⟩ := hnodup
    by_cases h : k = id
    · subst h
      rw [mapInsert, if_pos rfl, List.countP_cons]
      simp only [decide_eq_true_eq]
      rw [countP_key_eq_zero_of_not_mem hk]
      simp
    · rw [mapInsert, if_neg h, List.countP_cons]
      have hlk2 : rest.lookup id = some t := by
        simp only [List.lookup, beq_false_of_ne (Ne.symm h)] at hlk
        exact hlk
      rw [ih hrest hlk2]
      simp [h]

theorem countP_status_partition (l : List (String × Transfer)) :
    l.countP (fun p => p.2.status = .pending) + l.countP (fun p => p.2.status = .inProgress) +
        l.countP (fun p => p.2.status = .completed) +
        l.countP (fun p => p.2.status = .failed) =
      l.length := by
  induction l with
  | nil => simp
  | cons p rest ih =>
    simp only [List.countP_cons, List.length_cons]
    cases hs : p.2.status <;> simp [hs] <;> omega

/-- C10 (implicit behavior): `Add` on an id already present replaces
the stored record with a fresh Pending one (discarding the old status
and progress) and appends the id to the insertion-order list a second
time, so `GetAll` — which walks that list — returns the record of this
transfer twice, while `Stats` — which ranges over the map — counts it
exactly once (one map entry for the id, every entry counted once
across the four status counters). -/
theorem C10_add_existing_id (m : Manager) (id source destination : String) (t : Transfer)
    (hnodup : (m.transfers.map Prod.fst).Nodup)
    (hlk : m.transfers.lookup id = some t)
    (hcount : m.order.count id = 1) :
    ((m.add id source destination).transfers.lookup id =
        some (freshTransfer id source destination)) ∧
    (m.add id source destination).order = m.order ++ [id] ∧
    (m.add id source destination).order.count id = 2 ∧
    2 ≤ (m.add id source destination).getAll.count (freshTransfer id source destination) ∧
    (m.add id source destination).transfers.countP (fun p => p.1 = id) = 1 ∧
    ((m.add id source destination).stats.1 + (m.add id source destination).stats.2.1 +
        (m.add id source destination).stats.2.2.1 +
        (m.add id source destination).stats.2.2.2 =
      (m.add id source destination).transfers.length) := by
  have horder : (m.add id source destination).order = m.order ++ [id] := rfl
  have hcount2 : (m.add id source destination).order.count id = 2 := by
    rw [horder, List.count_append]
    simp [hcount]
  refine ⟨lookup_mapInsert_self _ _ _, horder, hcount2, ?_, ?_, ?_⟩
  · have hf : (m.add id source destination).transfers.lookup id =
        some (freshTransfer id source destination) := lookup_mapInsert_self _ _ _
    have := count_le_filterMap_count
      (fun i => (m.add id source destination).transfers.lookup i)
      (freshTransfer id source destination) id hf (m.add id source destination).order
    rw [hcount2] at this
    exact this
  · exact countP_key_mapInsert hnodup hlk
  · exact countP_status_partition _

/-- Witness for C10 on a one-transfer store re-`Add`ed under the same
id. -/
theorem C10_add_existing_id_witness :
    (((Manager.new.add "a" "s" "d").add "a" "s2" "d2").transfers.lookup "a" =
        some (freshTransfer "a" "s2" "d2")) ∧
    ((Manager.new.add "a" "s" "d").add "a" "s2" "d2").order = ["a"] ++ ["a"] ∧
    ((Manager.new.add "a" "s" "d").add "a" "s2" "d2").order.count "a" = 2 ∧
    2 ≤ ((Manager.new.add "a" "s" "d").add "a" "s2" "d2").getAll.count
        (freshTransfer "a" "s2" "d2") ∧
    ((Manager.new.add "a" "s" "d").add "a" "s2" "d2").transfers.countP
        (fun p => p.1 = "a") = 1 ∧
    (((Manager.new.add "a" "s" "d").add "a" "s2" "d2").stats.1 +
        ((Manager.new.add "a" "s" "d").add "a" "s2" "d2").stats.2.1 +
        ((Manager.new.add "a" "s" "d").add "a" "s2" "d2").stats.2.2.1 +
        ((Manager.new.add "a" "s" "d").add "a" "s2" "d2").stats.2.2.2 =
      ((Manager.new.add "a" "s" "d").add "a" "s2" "d2").transfers.length) :=
  C10_add_existing_id (Manager.new.add "a" "s" "d") "a" "s2" "d2"
    (freshTransfer "a" "s" "d") (by decide) (by decide) (by decide)

/-! ### C4 -/

/-- C4 counterexample: at byte level the parser truncates — for unit
`"B"` (and the empty unit) on `"1.5"` it returns the integer 1, not
the claimed `1.5 · 1024⁰ = 1.5`. -/
theorem C4_counterexample_byte_level_truncates :
    parseSize "1.5" "B" = 1 ∧ parseSize "1.5" "" = 1 ∧ ((1 : ℚ) ≠ 3 / 2 * 1024 ^ 0) :=
  ⟨by decide, by decide, by norm_num⟩

/-- C4 amended: for the numeric string `"1.5"`, every letter-case
variant of the units `B, K, KB, KiB, M, MB, MiB, G, GB, GiB` parses to
the truncation toward zero of `1.5 · 1024ⁿ` (`n` the unit's binary
order) — that is, exactly `1.5 · 1024ⁿ` for the K/M/G forms
(1536, 1572864, 1610612736) and `1` (truncated from 1.5) for the
byte-level forms — and the empty unit behaves identically to `B`. -/
theorem C4_amended_parseSize_units :
    (    parseSize "1.5" "b" = 1 ∧
    parseSize "1.5" "B" = 1 ∧
    parseSize "1.5" "k" = 1536 ∧
    parseSize "1.5" "K" = 1536 ∧
    parseSize "1.5" "kb" = 1536 ∧
    parseSize "1.5" "kB" = 1536 ∧
    parseSize "1.5" "Kb" = 1536 ∧
    parseSize "1.5" "KB" = 1536 ∧
    parseSize "1.5" "kib" = 1536 ∧
    parseSize "1.5" "kiB" = 1536 ∧
    parseSize "1.5" "kIb" = 1536 ∧
    parseSize "1.5" "kIB" = 1536 ∧
    parseSize "1.5" "Kib" = 1536 ∧
    parseSize "1.5" "KiB" = 1536 ∧
    parseSize "1.5" "KIb" = 1536 ∧
    parseSize "1.5" "KIB" = 1536 ∧
    parseSize "1.5" "m" = 1572864 ∧
    parseSize "1.5" "M" = 1572864 ∧
    parseSize "1.5" "mb" = 1572864 ∧
    parseSize "1.5" "mB" = 1572864 ∧
    parseSize "1.5" "Mb" = 1572864 ∧
    parseSize "1.5" "MB" = 1572864 ∧
    parseSize "1.5" "mib" = 1572864 ∧
    parseSize "1.5" "miB" = 1572864 ∧
    parseSize "1.5" "mIb" = 1572864 ∧
    parseSize "1.5" "mIB" = 1572864 ∧
    parseSize "1.5" "Mib" = 1572864 ∧
    parseSize "1.5" "MiB" = 1572864 ∧
    parseSize "1.5" "MIb" = 1572864 ∧
    parseSize "1.5" "MIB" = 1572864 ∧
    parseSize "1.5" "g" = 1610612736 ∧
    parseSize "1.5" "G" = 1610612736 ∧
    parseSize "1.5" "gb" = 1610612736 ∧
    parseSize "1.5" "gB" = 1610612736 ∧
    parseSize "1.5" "Gb" = 1610612736 ∧
    parseSize "1.5" "GB" = 1610612736 ∧
    parseSize "1.5" "gib" = 1610612736 ∧
    parseSize "1.5" "giB" = 1610612736 ∧
    parseSize "1.5" "gIb" = 1610612736 ∧
    parseSize "1.5" "gIB" = 1610612736 ∧
    parseSize "1.5" "Gib" = 1610612736 ∧
    parseSize "1.5" "GiB" = 1610612736 ∧
    parseSize "1.5" "GIb" = 1610612736 ∧
    parseSize "1.5" "GIB" = 1610612736 ∧
    parseSize "1.5" "" = parseSize "1.5" "B") ∧
    ((1536 : ℚ) = 3 / 2 * 1024 ^ 1 ∧ (1572864 : ℚ) = 3 / 2 * 1024 ^ 2 ∧
      (1610612736 : ℚ) = 3 / 2 * 1024 ^ 3) :=
  ⟨by decide, by norm_num, by norm_num, by norm_num⟩

/-! ### C5 -/

theorem retryLoop_allFail (errFn : Nat → GoError) (maxA : Nat) :
    ∀ remaining attempt delay maxDelay multiplier,
      attempt + remaining = maxA + 1 → 1 ≤ remaining → 1 ≤ attempt →
      retryLoop (fun k => some (errFn k)) maxA remaining attempt delay maxDelay multiplier =
        (some (.wrap ("failed after " ++ toString maxA ++ " attempts") (errFn maxA)), maxA) := by
  intro remaining
  induction remaining with
  | zero => intro attempt delay maxDelay multiplier _ h2 _; omega
  | succ r ih =>
    intro attempt delay maxDelay multiplier h1 _ h3
    simp only [retryLoop]
    by_cases hA : attempt = maxA
    · subst hA
      simp
    · simp only [if_neg hA]
      exact ih (attempt + 1) _ maxDelay multiplier (by omega) (by omega) (by omega)

/-- C5: for every configuration whose `MaxAttempts` is `N ≥ 1` and
every attempt body that fails at every invocation, `ExecuteWithRetry`
(with no cancellation) runs the attempt exactly `N` times and returns
an error whose message reads `"failed after N attempts"` and which
wraps the last (the `N`-th) attempt's failure. -/
theorem C5_retry_exhaustion (N : Nat) (hN : 1 ≤ N) (errFn : Nat → GoError)
    (cfg : RetryConfig) (hcfg : cfg.MaxAttempts = (N : Int)) :
    executeWithRetry (fun k => some (errFn k)) cfg =
      (some (.wrap ("failed after " ++ toString N ++ " attempts") (errFn N)), N) := by
  have hnot : ¬ cfg.MaxAttempts ≤ 0 := by
    rw [hcfg]
    omega
  have hmax : (validateRetryConfig cfg).MaxAttempts = (N : Int) := by
    unfold validateRetryConfig
    simp only [hcfg]
    rw [if_neg (show ¬ (N : Int) ≤ 0 by omega)]
  have htoNat : (validateRetryConfig cfg).MaxAttempts.toNat = N := by
    rw [hmax]
    simp
  unfold executeWithRetry
  rw [htoNat]
  exact retryLoop_allFail errFn N N 1 _ _ _ (by omega) hN (by omega)

/-- Witness for C5: three always-failing attempts under
`MaxAttempts = 3` give exactly 3 invocations and the
`"failed after 3 attempts"` wrapper. -/
theorem C5_retry_exhaustion_witness :
    executeWithRetry (fun _ => some (.basic "boom")) ⟨3, 10, 100, ⟨2, 0⟩⟩ =
      (some (.wrap "failed after 3 attempts" (.basic "boom")), 3) :=
  C5_retry_exhaustion 3 (by decide) (fun _ => .basic "boom") ⟨3, 10, 100, ⟨2, 0⟩⟩ (by decide)

/-! ### C6 -/

/-- C6 counterexample: an unset (zero) `MaxAttempts` is validated to
the floor value 1, not to the documented default 3 — the default 3
exists only in `DefaultRetryConfig`, which `ExecuteWithRetry`'s
validation does not consult. -/
theorem C6_counterexample_unset_max_attempts_becomes_one :
    (validateRetryConfig ⟨0, 0, 0, ⟨0, 0⟩⟩).MaxAttempts = 1 ∧
    (validateRetryConfig ⟨0, 0, 0, ⟨0, 0⟩⟩).MaxAttempts ≠ 3 := by
  decide

/-- C6 amended: `ExecuteWithRetry` validates its configuration before
running by replacing each unset or invalid (non-positive) field —
max attempts with the floor 1 (not with `DefaultRetryConfig`'s 3,
which is only the separate documented default), initial delay with 2s,
max delay with 30s, and the backoff multiplier with 2.0 — leaving
valid fields untouched, so the validated max attempts is always at
least 1. -/
theorem C6_validation_floor_and_defaults (cfg : RetryConfig) :
    validateRetryConfig cfg =
      ⟨if cfg.MaxAttempts ≤ 0 then 1 else cfg.MaxAttempts,
        if cfg.InitialDelay ≤ 0 then 2000000000 else cfg.InitialDelay,
        if cfg.MaxDelay ≤ 0 then 30000000000 else cfg.MaxDelay,
        if cfg.Multiplier.isNonPos then ⟨2, 0⟩ else cfg.Multiplier⟩ ∧
    1 ≤ (validateRetryConfig cfg).MaxAttempts ∧
    DefaultRetryConfig = ⟨3, 2000000000, 30000000000, ⟨2, 0⟩⟩ ∧
    DecNum.val ⟨2, 0⟩ = 2 := by
  refine ⟨rfl, ?_, rfl, by norm_num [DecNum.val]⟩
  unfold validateRetryConfig
  dsimp only
  split <;> omega

/-! ### C7 -/

/-- C7: for a non-validation error whose lower-cased text contains
both a network keyword and an auth keyword, `ClassifyError` returns
Network with `Retryable` and `Temporary` both true (the network rule
precedes the auth rule in the fixed priority order); and for a
non-validation error matching no keyword set at all it returns Unknown
with `Retryable = true` and `Temporary = false`. -/
theorem C7_classifier_priority_and_default :
    (∀ e : GoError, e.isValidationErr = false →
        networkKeywords.any (strContains (toLowerStr e.errorText)) = true →
        authKeywords.any (strContains (toLowerStr e.errorText)) = true →
        classifyError e = ⟨.network, e, true, true⟩) ∧
    (∀ e : GoError, e.isValidationErr = false →
        networkKeywords.any (strContains (toLowerStr e.errorText)) = false →
        timeoutKeywords.any (strContains (toLowerStr e.errorText)) = false →
        authKeywords.any (strContains (toLowerStr e.errorText)) = false →
        notFoundKeywords.any (strContains (toLowerStr e.errorText)) = false →
        spaceKeywords.any (strContains (toLowerStr e.errorText)) = false →
        fileSystemKeywords.any (strContains (toLowerStr e.errorText)) = false →
        classifyError e = ⟨.unknown, e, true, false⟩) := by
  constructor
  · intro e h1 h2 _h3
    unfold classifyError
    simp only [h1, h2]
    simp
  · intro e h1 h2 h3 h4 h5 h6 h7
    unfold classifyError
    simp only [h1, h2, h3, h4, h5, h6, h7]
    simp

/-- Witness for C7: an error text holding both `"connection"` and
`"permission denied"` classifies as Network/retryable/temporary, and a
keyword-free error classifies as Unknown/retryable/not-temporary. -/
theorem C7_classifier_priority_and_default_witness :
    classifyError (.basic "connection refused: permission denied") =
      ⟨.network, .basic "connection refused: permission denied", true, true⟩ ∧
    classifyError (.basic "mystery glitch") =
      ⟨.unknown, .basic "mystery glitch", true, false⟩ :=
  ⟨C7_classifier_priority_and_default.1 (.basic "connection refused: permission denied")
      (by decide) (by decide) (by decide),
    C7_classifier_priority_and_default.2 (.basic "mystery glitch")
      (by decide) (by decide) (by decide) (by decide) (by decide) (by decide) (by decide)⟩

/-! ### C8 -/

/-- C8: for every options value the Execution Driver's argument vector
is exactly the operation verb, then `-v`, then `--stats` with the
configured interval (`"500ms"` when unset), then `--dry-run` exactly
when the dry-run flag is set, then the caller's extra flags in order,
then source and destination as the last two positional arguments. -/
theorem C8_buildArgs_shape (opts : RcloneOptions) :
    buildArgs opts =
      [opts.Command, "-v", "--stats",
          if opts.StatsInterval = "" then "500ms" else opts.StatsInterval] ++
        (if opts.DryRun then ["--dry-run"] else []) ++
        opts.Flags ++ [opts.Source, opts.Destination] := by
  unfold buildArgs
  by_cases h : opts.DryRun <;> simp [h]
